import Mathlib

/-!
Verification of the in-memory faceted manuscript search engine
(`src/api/index-search.ts`, with the pagination layer of `src/api/index.js`).

The TypeScript code is shallowly embedded as executable Lean definitions:

* A JavaScript `Set<string>` is modelled as a duplicate-free `List String`
  kept in insertion order; `Set.add` is `SAdd` (append when absent) and
  `Set.delete` is `SDel` (remove the element).
* A JavaScript `Map<string, number>` / plain object used as a counter is
  modelled as an insertion-ordered association list `List (String × Nat)`;
  `m.set(k, (m.get(k) || 0) + 1)` is `mapIncr`.
* `Record<string, T>` lookup is `recLookup` over `List (String × T)`.
* JavaScript strings are modelled through Lean `String`; the engine only
  performs ASCII case folding (`asciiLower`), substring containment,
  character deletion and prefix slicing, all of which are expressed over
  the character list `String.data` where index arithmetic is needed.
* Number-typed manuscript fields (`page_count`, coordinates, PCA vectors)
  never satisfy the string matchers (`typeof value === 'string'` and the
  array branch both fail), so they are embedded as a non-string field value.
-/

/-- Language metadata entry of the index (`LanguageMetadata`). -/
structure LanguageMetadata where
  name : String
  is_historical : Option Bool := Option.none
  parent : Option String := Option.none
deriving Repr, DecidableEq

/-- Index metadata (`IndexMetadata`). -/
structure IndexMetadata where
  version : Nat
  manuscriptCount : Nat
  generatedDate : String
  language_metadata : List (String × LanguageMetadata) := []
deriving Repr, DecidableEq

/-- One manuscript document (`ManuscriptEntry`).  Optional numeric bounds are
`Option Int`; the JavaScript falsy test `!doc.start_year` is true exactly for
`Option.none` and `some 0`.  `transcription_status` is the optional
display-only field of the data model, read by the runtime
`calculateFacetCounts`.  The purely numeric display fields (`latitude`,
`longitude`, `pca_coords`) can never match a text query and are omitted. -/
structure ManuscriptEntry where
  id : String
  title : String
  shelfmark : String
  repository : String
  authors : List String
  origin_location : String
  languages : List String
  material_keywords : List String
  script_keywords : List String
  page_count : Nat := 0
  brief : String
  start_year : Option Int := Option.none
  end_year : Option Int := Option.none
  date_range_text : Option String := Option.none
  transcription_status : Option String := Option.none
deriving Repr, DecidableEq

/-- A facet mapping: facet value → array of manuscript IDs
(`Record<string, string[]>`). -/
abbrev FacetMap : Type := List (String × List String)

/-- The full search index (`SearchIndex`).  `facets` maps facet-type names
(`languages`, `material_keywords`, `script_keywords`, `repository`) to their
value → ID-array maps; an absent facet type models `index.facets[facetType]`
being `undefined`. -/
structure SearchIndex where
  metadata : IndexMetadata
  documents : List ManuscriptEntry
  facets : List (String × FacetMap)

/-! ## JavaScript collection primitives -/

/-- `Set.add`: append the element unless already present (JS sets keep
insertion order and ignore re-insertion). -/
def SAdd (s : List String) (x : String) : List String :=
  if x ∈ s then s else s ++ [x]

/-- `Set.delete`: remove the element. -/
def SDel (s : List String) (x : String) : List String :=
  s.filter (fun y => y ≠ x)

/-- `Record`/`Map` lookup: first entry with the given key. -/
def recLookup {α : Type} (m : List (String × α)) (k : String) : Option α :=
  (m.find? (fun p => p.1 = k)).map (fun p => p.2)

/-- Counter read: `m.get(k) || 0` / `obj[k] || 0`. -/
def natGet (m : List (String × Nat)) (k : String) : Nat :=
  ((m.find? (fun p => p.1 = k)).map (fun p => p.2)).getD 0

/-- Counter bump: `m.set(k, (m.get(k) || 0) + 1)` — update in place when the
key exists (preserving position), else append a fresh entry. -/
def mapIncr (m : List (String × Nat)) (k : String) : List (String × Nat) :=
  if m.any (fun p => p.1 = k) then
    m.map (fun p => if p.1 = k then (p.1, p.2 + 1) else p)
  else m ++ [(k, 1)]

/-- `new Map(documents.map(doc => [doc.id, doc])).get(id)`: Map insertion
overwrites, so the last document with a given id wins. -/
def idToDoc (docs : List ManuscriptEntry) (id : String) : Option ManuscriptEntry :=
  docs.foldl (fun acc doc => if doc.id = id then some doc else acc) Option.none

/-! ## Basic lemmas about the set model -/

theorem mem_SAdd {s : List String} {x a : String} :
    a ∈ SAdd s x ↔ a ∈ s ∨ a = x := by
  unfold SAdd
  by_cases h : x ∈ s
  · simp only [if_pos h]
    constructor
    · exact Or.inl
    · rintro (ha | rfl)
      · exact ha
      · exact h
  · simp [if_neg h]

theorem mem_SDel {s : List String} {x a : String} :
    a ∈ SDel s x ↔ a ∈ s ∧ a ≠ x := by
  unfold SDel
  simp [List.mem_filter]

theorem nodup_SAdd {s : List String} (h : s.Nodup) (x : String) :
    (SAdd s x).Nodup := by
  unfold SAdd
  by_cases hx : x ∈ s
  · simpa [if_pos hx]
  · rw [if_neg hx]
    simp only [List.nodup_append, List.nodup_cons, List.nodup_nil]
    refine ⟨h, by simp, ?_⟩
    intro a ha hb
    simp only [List.mem_singleton] at hb
    subst hb
    exact hx ha

theorem nodup_SDel {s : List String} (h : s.Nodup) (x : String) :
    (SDel s x).Nodup :=
  List.Nodup.filter _ h

theorem mem_foldl_SAdd {l : List String} {init : List String} {a : String} :
    a ∈ l.foldl SAdd init ↔ a ∈ init ∨ a ∈ l := by
  induction l generalizing init with
  | nil => simp
  | cons x xs ih =>
      simp only [List.foldl_cons, ih, mem_SAdd, List.mem_cons]
      tauto

theorem mem_foldl_SDel {l : List String} {init : List String} {a : String} :
    a ∈ l.foldl SDel init ↔ a ∈ init ∧ a ∉ l := by
  induction l generalizing init with
  | nil => simp
  | cons x xs ih =>
      simp only [List.foldl_cons, ih, mem_SDel, List.mem_cons]
      tauto

theorem nodup_foldl_SAdd {l : List String} {init : List String}
    (h : init.Nodup) : (l.foldl SAdd init).Nodup := by
  induction l generalizing init with
  | nil => exact h
  | cons x xs ih => exact ih (nodup_SAdd h x)

theorem nodup_foldl_SDel {l : List String} {init : List String}
    (h : init.Nodup) : (l.foldl SDel init).Nodup := by
  induction l generalizing init with
  | nil => exact h
  | cons x xs ih => exact ih (nodup_SDel h x)

/-! ## String helpers -/

/-- JavaScript `toLowerCase()` under the specification's ASCII-only case
folding: lower each character (`Char.toLower` only folds basic latin
letters).  Expressed over the character list so that it evaluates inside the
kernel. -/
def asciiLower (s : String) : String :=
  String.mk (s.data.map Char.toLower)

/-- JavaScript `String.prototype.includes`: the query occurs as a contiguous
substring. -/
def containsSubstr (s sub : String) : Bool :=
  (List.range (s.length + 1)).any (fun i => sub.data.isPrefixOf (s.data.drop i))

/-- The character class of the JavaScript regular expression `\s`. -/
def isWs (c : Char) : Bool :=
  c = ' ' || c = '\t' || c = '\n' || c = '\r' ||
  c = Char.ofNat 0x0b || c = Char.ofNat 0x0c || c = Char.ofNat 0xa0 ||
  c = Char.ofNat 0x1680 ||
  (0x2000 ≤ c.toNat && c.toNat ≤ 0x200a) ||
  c = Char.ofNat 0x2028 || c = Char.ofNat 0x2029 || c = Char.ofNat 0x202f ||
  c = Char.ofNat 0x205f || c = Char.ofNat 0x3000 || c = Char.ofNat 0xfeff

/-- Worker for `splitWs`: scan the remaining characters, keeping the current
word (reversed); at a whitespace run, emit the word and skip the run. -/
def splitWsGo (cs : List Char) (cur : List Char) : List String :=
  match cs with
  | [] => [String.mk cur.reverse]
  | c :: rest =>
      if isWs c then
        String.mk cur.reverse :: splitWsGo (rest.dropWhile isWs) []
      else
        splitWsGo rest (c :: cur)
termination_by cs.length
decreasing_by
  · exact Nat.lt_succ_of_le (List.dropWhile_sublist isWs).length_le
  · exact Nat.lt_succ_self _

/-- JavaScript `text.split(/\s+/)`: split at maximal whitespace runs (an empty
string is produced at each boundary run, exactly as in JavaScript). -/
def splitWs (s : String) : List String :=
  splitWsGo s.data []

/-! ## Text search (`TextSearch`) -/

/-- The four text match strategies. -/
inductive TextMatchType where
  | exact
  | contains
  | startsWith
  | fuzzy
deriving Repr, DecidableEq

/-- The keys of `ManuscriptEntry` a `TextSearch` may target. -/
inductive EntryField where
  | id
  | title
  | shelfmark
  | repository
  | authors
  | origin_location
  | languages
  | material_keywords
  | script_keywords
  | page_count
  | brief
  | start_year
  | end_year
  | date_range_text
  | transcription_status
deriving Repr, DecidableEq

/-- The runtime shape of `doc[field]` as discriminated by the source
(`typeof value === 'string'` / `Array.isArray(value)` / anything else). -/
inductive FieldValue where
  | str (s : String)
  | arr (l : List String)
  | nonString
deriving Repr, DecidableEq

/-- `doc[field]` classified by its runtime type. -/
def fieldValue (doc : ManuscriptEntry) : EntryField → FieldValue
  | .id => .str doc.id
  | .title => .str doc.title
  | .shelfmark => .str doc.shelfmark
  | .repository => .str doc.repository
  | .authors => .arr doc.authors
  | .origin_location => .str doc.origin_location
  | .languages => .arr doc.languages
  | .material_keywords => .arr doc.material_keywords
  | .script_keywords => .arr doc.script_keywords
  | .page_count => .nonString
  | .brief => .str doc.brief
  | .start_year => .nonString
  | .end_year => .nonString
  | .date_range_text =>
      match doc.date_range_text with
      | some s => .str s
      | Option.none => .nonString
  | .transcription_status =>
      match doc.transcription_status with
      | some s => .str s
      | Option.none => .nonString

/-- `TextSearch.fuzzyMatch`: contains fast path, degradation for queries of
length ≤ 2, then per-word exact / single-character-deletion / shared-prefix
checks.  `word.substring(0, i) + word.substring(i + 1)` and the prefix slices
are expressed over the character lists. -/
def fuzzyMatch (text query : String) : Bool :=
  if containsSubstr text query then true
  else if query.length ≤ 2 then containsSubstr text query
  else
    let words := splitWs (asciiLower text)
    let queryLower := asciiLower query
    words.any (fun word =>
      word = queryLower ||
      (4 ≤ word.length && 3 ≤ queryLower.length &&
        ((List.range word.length).any (fun i =>
            word.data.take i ++ word.data.drop (i + 1) = queryLower.data) ||
         (3 ≤ min queryLower.length word.length - 1 &&
            word.data.take (min queryLower.length word.length - 1) =
              queryLower.data.take (min queryLower.length word.length - 1)))))

/-- `TextSearch.matchString`: lowercase the field value, then dispatch on the
match type (`startsWith` is prefix comparison of the character lists). -/
def matchString (value query : String) (matchType : TextMatchType) : Bool :=
  let normalizedValue := asciiLower value
  match matchType with
  | .exact => normalizedValue = query
  | .contains => containsSubstr normalizedValue query
  | .startsWith => query.data.isPrefixOf normalizedValue.data
  | .fuzzy => fuzzyMatch normalizedValue query

/-- Options of a `TextSearch`; `matchType` defaults to `contains` at the
point of use, as in the destructuring default of `execute`. -/
structure TextSearchOptions where
  fields : List EntryField
  query : String
  matchType : Option TextMatchType := Option.none
deriving Repr, DecidableEq

/-- Whether a single field of a document matches
(string / array-of-strings / non-string dispatch of `execute`). -/
def matchesValue (v : FieldValue) (query : String) (matchType : TextMatchType) : Bool :=
  match v with
  | .str s => matchString s query matchType
  | .arr l => l.any (fun item => matchString item query matchType)
  | .nonString => false

/-- The per-document body of `TextSearch.execute`: some field matches the
lowercased query. -/
def docMatchesText (opts : TextSearchOptions) (doc : ManuscriptEntry) : Bool :=
  opts.fields.any (fun field =>
    matchesValue (fieldValue doc field) (asciiLower opts.query)
      (opts.matchType.getD TextMatchType.contains))

/-- `TextSearch.execute`: scan `index.documents` in order, adding matching
document ids to the result set. -/
def TextSearch.execute (index : SearchIndex) (opts : TextSearchOptions) : List String :=
  index.documents.foldl
    (fun results doc => if docMatchesText opts doc then SAdd results doc.id else results) []

/-! ## Facet search (`FacetSearch`) -/

/-- The three facet combination modes. -/
inductive FacetMatchType where
  | any
  | all
  | none
deriving Repr, DecidableEq

/-- Options of a `FacetSearch`; `matchType` defaults to `any` at the point of
use. -/
structure FacetSearchOptions where
  facetType : String
  values : List String
  matchType : Option FacetMatchType := Option.none
deriving Repr, DecidableEq

/-- `FacetSearch.execute`.  Unknown facet type yields the empty set; `any`
unions the per-value ID arrays; `all` counts occurrences per document ID and
keeps those counted once per requested value; `none` starts from every
document id and removes the ids of every requested value. -/
def FacetSearch.execute (index : SearchIndex) (opts : FacetSearchOptions) : List String :=
  let matchType := opts.matchType.getD FacetMatchType.any
  match recLookup index.facets opts.facetType with
  | Option.none => []
  | Option.some facets =>
    match matchType with
    | .any =>
        opts.values.foldl (fun results value =>
          match recLookup facets value with
          | Option.some docIds => docIds.foldl SAdd results
          | Option.none => results) []
    | .all =>
        if opts.values.length = 0 then []
        else
          let potentialMatches :=
            opts.values.foldl (fun pm value =>
              match recLookup facets value with
              | Option.some docIds => docIds.foldl mapIncr pm
              | Option.none => pm) []
          potentialMatches.foldl (fun results p =>
            if p.2 = opts.values.length then SAdd results p.1 else results) []
    | .none =>
        let univ := index.documents.foldl (fun results doc => SAdd results doc.id) []
        opts.values.foldl (fun results value =>
          match recLookup facets value with
          | Option.some docIds => docIds.foldl SDel results
          | Option.none => results) univ

/-! ## Date range search (`DateRangeSearch`) -/

/-- The three date comparison types. -/
inductive DateRangeType where
  | before
  | after
  | between
deriving Repr, DecidableEq

/-- Options of a `DateRangeSearch` (`endYear` only meaningful for
`between`). -/
structure DateRangeSearchOptions where
  type : DateRangeType
  year : Int
  endYear : Option Int := Option.none
deriving Repr, DecidableEq

/-- The per-document body of `DateRangeSearch.execute`: documents with a
falsy bound (`undefined` or `0`) are skipped; otherwise the comparison of the
configured type decides the match. -/
def dateMatches (opts : DateRangeSearchOptions) (doc : ManuscriptEntry) : Bool :=
  match doc.start_year, doc.end_year with
  | Option.some sy, Option.some ey =>
      if sy = 0 || ey = 0 then false
      else
        match opts.type with
        | .before => ey ≤ opts.year
        | .after => sy ≥ opts.year
        | .between =>
            match opts.endYear with
            | Option.none => false
            | Option.some endY =>
                (sy ≤ opts.year && ey ≥ opts.year) ||
                (sy ≤ endY && ey ≥ endY) ||
                (sy ≥ opts.year && ey ≤ endY)
  | _, _ => false

/-- `DateRangeSearch.execute`: scan `index.documents` in order, adding the
ids of matching documents. -/
def DateRangeSearch.execute (index : SearchIndex) (opts : DateRangeSearchOptions) : List String :=
  index.documents.foldl
    (fun results doc => if dateMatches opts doc then SAdd results doc.id else results) []

/-! ## Boolean combination and the query engine (`ManuscriptSearch`) -/

/-- The boolean operators. -/
inductive BooleanOperator where
  | AND
  | OR
  | NOT
deriving Repr, DecidableEq

/-- The combination step shared verbatim by `BooleanSearch.execute` and the
multi-operation loop of `ManuscriptSearch.search`: intersection built by
scanning the left set, union by adding the right set, difference by deleting
the right set. -/
def combineIds (operator : BooleanOperator) (results1 results2 : List String) : List String :=
  match operator with
  | .AND =>
      results1.foldl
        (fun intersection id => if id ∈ results2 then SAdd intersection id else intersection) []
  | .OR => results2.foldl SAdd results1
  | .NOT => results2.foldl SDel results1

/-- A search operation (`SearchOperation`): the tagged union of the three
primitives and the binary boolean combinator. -/
inductive SearchOperation where
  | text (opts : TextSearchOptions)
  | facet (opts : FacetSearchOptions)
  | date (opts : DateRangeSearchOptions)
  | boolean (op1 op2 : SearchOperation) (operator : BooleanOperator)

/-- `execute` of each operation variant (`BooleanSearch.execute` executes both
children against the same index and combines). -/
def SearchOperation.execute (op : SearchOperation) (index : SearchIndex) : List String :=
  match op with
  | .text opts => TextSearch.execute index opts
  | .facet opts => FacetSearch.execute index opts
  | .date opts => DateRangeSearch.execute index opts
  | .boolean op1 op2 operator => combineIds operator (op1.execute index) (op2.execute index)

/-- A query (`SearchQuery`): operations plus the optional top-level
operator (`query.operator || 'AND'`). -/
structure SearchQuery where
  operations : List SearchOperation
  operator : Option BooleanOperator := Option.none

/-- The ID-set phase of `ManuscriptSearch.search`: all document ids for an
empty query, a single operation executed directly, otherwise a left-to-right
fold with the shared operator. -/
def searchIds (index : SearchIndex) (query : SearchQuery) : List String :=
  match query.operations with
  | [] => (index.documents.map (fun doc => doc.id)).foldl SAdd []
  | [op] => op.execute index
  | firstOp :: restOps =>
      restOps.foldl
        (fun resultIds op =>
          combineIds (query.operator.getD BooleanOperator.AND) resultIds (op.execute index))
        (firstOp.execute index)

/-- Facet counts of a result (`Record<string, Record<string, number>>` with
the five counters of the runtime `calculateFacetCounts`, including
`transcription_status`). -/
structure FacetCounts where
  languages : List (String × Nat)
  material_keywords : List (String × Nat)
  script_keywords : List (String × Nat)
  repository : List (String × Nat)
  transcription_status : List (String × Nat)
deriving Repr, DecidableEq

/-- One step of `calculateFacetCounts`: tally a single matched item.
`repository` is only counted when truthy (non-empty), and
`transcription_status` only when present and truthy — the runtime guard
`item.transcription_status && typeof item.transcription_status === 'string'`
holds exactly for a present, non-empty string value. -/
def tallyEntry (counts : FacetCounts) (item : ManuscriptEntry) : FacetCounts :=
  let counts := { counts with languages := item.languages.foldl mapIncr counts.languages }
  let counts := { counts with
    material_keywords := item.material_keywords.foldl mapIncr counts.material_keywords }
  let counts := { counts with
    script_keywords := item.script_keywords.foldl mapIncr counts.script_keywords }
  let counts :=
    if item.repository ≠ "" then
      { counts with repository := mapIncr counts.repository item.repository }
    else counts
  match item.transcription_status with
  | Option.some ts =>
      if ts ≠ "" then
        { counts with transcription_status := mapIncr counts.transcription_status ts }
      else counts
  | Option.none => counts

/-- `ManuscriptSearch.calculateFacetCounts`: tally every matched item into
initially empty per-facet-type counters. -/
def calculateFacetCounts (items : List ManuscriptEntry) : FacetCounts :=
  items.foldl tallyEntry
    { languages := [], material_keywords := [], script_keywords := [], repository := [],
      transcription_status := [] }

/-- A search result (`SearchResult`). -/
structure SearchResult where
  total : Nat
  items : List ManuscriptEntry
  facetCounts : FacetCounts

/-- `ManuscriptSearch.search`: compute the matched ID set, project ids to
documents through the id → document map (ids with no document are dropped by
the `filter`), and tally facet counts over the matched items. -/
def ManuscriptSearch.search (index : SearchIndex) (query : SearchQuery) : SearchResult :=
  let resultIds := searchIds index query
  let allMatchingItems := resultIds.filterMap (idToDoc index.documents)
  { total := allMatchingItems.length
    items := allMatchingItems
    facetCounts := calculateFacetCounts allMatchingItems }

/-- The left-nested `BooleanSearch` tree
`BooleanSearch(...BooleanSearch(op1, op2, operator)..., opN, operator)`. -/
def nestedBoolean (op1 : SearchOperation) (rest : List SearchOperation)
    (operator : BooleanOperator) : SearchOperation :=
  rest.foldl (fun acc op => SearchOperation.boolean acc op operator) op1

/-! ## The pagination layer of the `/search` route (`src/api/index.js`) -/

/-- JavaScript `Array.prototype.slice(start, stop)` for the in-range indices
used by the route (`page ≥ 1`, so both arguments are non-negative). -/
def jsSlice {α : Type} (l : List α) (start stop : Nat) : List α :=
  (l.drop start).take (stop - start)

/-- `Math.ceil(total / limit)` for natural `total` and positive `limit`. -/
def jsCeilDiv (total limit : Nat) : Nat :=
  (total + limit - 1) / limit

/-- The JSON body produced by the route. -/
structure SearchResponse where
  total : Nat
  page : Nat
  limit : Nat
  totalPages : Nat
  items : List ManuscriptEntry
deriving Repr, DecidableEq

/-- The pagination tail of the `/search` route, applied to the matched item
list (`searchResults.items`, whose length is `searchResults.total`). -/
def routePaginate (matched : List ManuscriptEntry) (page limit : Nat) : SearchResponse :=
  let startIndex := (page - 1) * limit
  let endIndex := startIndex + limit
  { total := matched.length
    page := page
    limit := limit
    totalPages := jsCeilDiv matched.length limit
    items := jsSlice matched startIndex endIndex }

/-- The `/search` route: run the engine, then paginate its items. -/
def searchRoute (index : SearchIndex) (query : SearchQuery) (page limit : Nat) : SearchResponse :=
  routePaginate (ManuscriptSearch.search index query).items page limit

/-! ## Generic lemmas about the scan-and-add folds -/

theorem mem_foldl_addIf {α : Type} (l : List α) (p : α → Prop) [DecidablePred p]
    (f : α → String) (init : List String) (x : String) :
    x ∈ l.foldl (fun r a => if p a then SAdd r (f a) else r) init ↔
      x ∈ init ∨ ∃ a ∈ l, p a ∧ f a = x := by
  induction l generalizing init with
  | nil => simp
  | cons b bs ih =>
      simp only [List.foldl_cons, ih, List.mem_cons]
      by_cases hb : p b
      · simp only [if_pos hb, mem_SAdd]
        constructor
        · rintro (⟨h | rfl⟩ | ⟨a, ha, hpa, rfl⟩)
          · exact Or.inl h
          · exact Or.inr ⟨b, Or.inl rfl, hb, rfl⟩
          · exact Or.inr ⟨a, Or.inr ha, hpa, rfl⟩
        · rintro (h | ⟨a, (rfl | ha), hpa, rfl⟩)
          · exact Or.inl (Or.inl h)
          · exact Or.inl (Or.inr rfl)
          · exact Or.inr ⟨a, ha, hpa, rfl⟩
      · simp only [if_neg hb]
        constructor
        · rintro (h | ⟨a, ha, hpa, rfl⟩)
          · exact Or.inl h
          · exact Or.inr ⟨a, Or.inr ha, hpa, rfl⟩
        · rintro (h | ⟨a, (rfl | ha), hpa, rfl⟩)
          · exact Or.inl h
          · exact absurd hpa hb
          · exact Or.inr ⟨a, ha, hpa, rfl⟩

theorem nodup_foldl_addIf {α : Type} (l : List α) (p : α → Prop) [DecidablePred p]
    (f : α → String) (init : List String) (h : init.Nodup) :
    (l.foldl (fun r a => if p a then SAdd r (f a) else r) init).Nodup := by
  induction l generalizing init with
  | nil => exact h
  | cons b bs ih =>
      simp only [List.foldl_cons]
      by_cases hb : p b
      · rw [if_pos hb]; exact ih _ (nodup_SAdd h _)
      · rw [if_neg hb]; exact ih _ h

/-- When the scanned ids are pairwise distinct, the scan-and-add fold from the
empty set is exactly the id image of the filtered scan (no `SAdd` skip ever
fires). -/
theorem foldl_addIf_eq_filter (docs : List ManuscriptEntry) (p : ManuscriptEntry → Prop)
    [DecidablePred p] (h : (docs.map (fun d => d.id)).Nodup) :
    docs.foldl (fun r d => if p d then SAdd r d.id else r) []
      = (docs.filter (fun d => decide (p d))).map (fun d => d.id) := by
  suffices H : ∀ (docs : List ManuscriptEntry) (init : List String),
      (docs.map (fun d => d.id)).Nodup → (∀ d ∈ docs, d.id ∉ init) →
      docs.foldl (fun r d => if p d then SAdd r d.id else r) init
        = init ++ (docs.filter (fun d => decide (p d))).map (fun d => d.id) by
    simpa using H docs [] h (by simp)
  intro docs
  induction docs with
  | nil => intro init _ _; simp
  | cons d ds ih =>
      intro init hnd hinit
      simp only [List.map_cons, List.nodup_cons] at hnd
      by_cases hp : p d
      · have hdid : d.id ∉ init := hinit d (List.mem_cons_self d ds)
        have : SAdd init d.id = init ++ [d.id] := by unfold SAdd; rw [if_neg hdid]
        simp only [List.foldl_cons, if_pos hp, this]
        rw [ih (init ++ [d.id]) hnd.2 ?_]
        · simp [List.filter_cons, hp]
        · intro e he
          simp only [List.mem_append, List.mem_singleton]
          rintro (h1 | h1)
          · exact hinit e (List.mem_cons_of_mem d he) h1
          · exact hnd.1 (h1 ▸ List.mem_map_of_mem (fun d => d.id) he)
      · simp only [List.foldl_cons, if_neg hp]
        rw [ih init hnd.2 (fun e he => hinit e (List.mem_cons_of_mem d he))]
        simp [List.filter_cons, hp]

/-- A duplicate-free list folded into an empty JavaScript set is unchanged. -/
theorem foldl_SAdd_self (l : List String) (h : l.Nodup) : l.foldl SAdd [] = l := by
  suffices H : ∀ (l init : List String), (init ++ l).Nodup → l.foldl SAdd init = init ++ l by
    simpa using H l [] (by simpa using h)
  intro l
  induction l with
  | nil => intro init _; simp
  | cons x xs ih =>
      intro init hnd
      have hx : x ∉ init := by
        intro hmem
        have := List.disjoint_of_nodup_append hnd hmem
        simp at this
      have hadd : SAdd init x = init ++ [x] := by unfold SAdd; rw [if_neg hx]
      simp only [List.foldl_cons, hadd]
      rw [ih (init ++ [x]) (by simpa using hnd)]
      simp

/-! ## Lemmas about the id → document map -/

theorem idToDoc_eq_some {docs : List ManuscriptEntry} {id : String} {d : ManuscriptEntry}
    (h : idToDoc docs id = some d) : d ∈ docs ∧ d.id = id := by
  suffices H : ∀ (docs : List ManuscriptEntry) (acc : Option ManuscriptEntry)
      (d : ManuscriptEntry),
      docs.foldl (fun acc doc => if doc.id = id then some doc else acc) acc = some d →
        (d ∈ docs ∧ d.id = id) ∨ acc = some d by
    rcases H docs Option.none d h with h1 | h1
    · exact h1
    · simp at h1
  intro docs
  induction docs with
  | nil => intro acc d h; simp at h; exact Or.inr h
  | cons e es ih =>
      intro acc d h
      simp only [List.foldl_cons] at h
      by_cases he : e.id = id
      · rw [if_pos he] at h
        rcases ih (some e) d h with ⟨h1, h2⟩ | h1
        · exact Or.inl ⟨List.mem_cons_of_mem e h1, h2⟩
        · simp only [Option.some.injEq] at h1
          exact Or.inl ⟨h1 ▸ List.mem_cons_self e es, h1 ▸ he⟩
      · rw [if_neg he] at h
        rcases ih acc d h with ⟨h1, h2⟩ | h1
        · exact Or.inl ⟨List.mem_cons_of_mem e h1, h2⟩
        · exact Or.inr h1

theorem idToDoc_eq_none_iff {docs : List ManuscriptEntry} {id : String} :
    idToDoc docs id = Option.none ↔ ∀ d ∈ docs, d.id ≠ id := by
  suffices H : ∀ (docs : List ManuscriptEntry) (acc : Option ManuscriptEntry),
      docs.foldl (fun acc doc => if doc.id = id then some doc else acc) acc = Option.none ↔
        acc = Option.none ∧ ∀ d ∈ docs, d.id ≠ id by
    unfold idToDoc
    rw [H docs Option.none]
    simp
  intro docs
  induction docs with
  | nil => intro acc; simp
  | cons e es ih =>
      intro acc
      simp only [List.foldl_cons, ih, List.mem_cons]
      by_cases he : e.id = id
      · rw [if_pos he]
        simp only [reduceCtorEq, false_and, false_iff, not_and, not_forall]
        intro _
        exact ⟨e, Or.inl rfl, by simp [he]⟩
      · rw [if_neg he]
        constructor
        · rintro ⟨h1, h2⟩
          refine ⟨h1, ?_⟩
          rintro d (rfl | hd)
          · exact he
          · exact h2 d hd
        · rintro ⟨h1, h2⟩
          exact ⟨h1, fun d hd => h2 d (Or.inr hd)⟩

/-- The fold building the id → document map keeps the accumulator when no
scanned document carries the id. -/
theorem idToDoc_foldl_const {docs : List ManuscriptEntry} {id : String}
    (h : ∀ d ∈ docs, d.id ≠ id) (acc : Option ManuscriptEntry) :
    docs.foldl (fun acc doc => if doc.id = id then some doc else acc) acc = acc := by
  induction docs generalizing acc with
  | nil => rfl
  | cons e es ih =>
      simp only [List.foldl_cons]
      rw [if_neg (h e (List.mem_cons_self e es)), ih (fun d hd => h d (List.mem_cons_of_mem e hd))]

/-- With pairwise distinct ids, looking up a document's own id returns that
document. -/
theorem idToDoc_self {docs : List ManuscriptEntry}
    (hnd : (docs.map (fun d => d.id)).Nodup) {d : ManuscriptEntry} (hd : d ∈ docs) :
    idToDoc docs d.id = some d := by
  induction docs with
  | nil => simp at hd
  | cons e es ih =>
      simp only [List.map_cons, List.nodup_cons] at hnd
      rcases List.mem_cons.mp hd with rfl | hd'
      · unfold idToDoc
        simp only [List.foldl_cons, if_pos rfl]
        exact idToDoc_foldl_const
          (fun x hx heq =>
            hnd.1 (by rw [← heq]; exact List.mem_map_of_mem (fun d => d.id) hx)) (some d)
      · have hne : e.id ≠ d.id := by
          intro heq
          exact hnd.1 (heq ▸ List.mem_map_of_mem (fun d => d.id) hd')
        unfold idToDoc at ih ⊢
        simp only [List.foldl_cons, if_neg hne]
        exact ih hnd.2 hd'

/-! ## Generic filterMap lemmas -/

theorem filterMap_filter_isSome {α β : Type} (g : α → Option β) (l : List α) :
    (l.filter (fun a => (g a).isSome)).filterMap g = l.filterMap g := by
  induction l with
  | nil => rfl
  | cons a as ih =>
      by_cases h : (g a).isSome
      · rcases Option.isSome_iff_exists.mp h with ⟨b, hb⟩
        simp [List.filter_cons, h, List.filterMap_cons, hb, ih]
      · simp only [Option.not_isSome_iff_eq_none] at h
        simp [List.filter_cons, h, List.filterMap_cons, ih]

theorem filterMap_map_all_some {α β : Type} (g : β → Option α) (f : α → β) (l : List α)
    (h : ∀ a ∈ l, g (f a) = some a) : (l.map f).filterMap g = l := by
  induction l with
  | nil => rfl
  | cons a as ih =>
      simp only [List.map_cons, List.filterMap_cons, h a (List.mem_cons_self a as)]
      rw [ih (fun b hb => h b (List.mem_cons_of_mem a hb))]

/-! ## Lemmas about the counter maps -/

theorem natGet_nil (x : String) : natGet [] x = 0 := rfl

theorem natGet_cons (p : String × Nat) (ps : List (String × Nat)) (x : String) :
    natGet (p :: ps) x = if p.1 = x then p.2 else natGet ps x := by
  unfold natGet
  by_cases h : p.1 = x <;> simp [List.find?_cons, h]

theorem natGet_map_incrAll (m : List (String × Nat)) (k x : String) :
    natGet (m.map (fun p => if p.1 = k then (p.1, p.2 + 1) else p)) x =
      if x = k ∧ m.any (fun p => p.1 = x) then natGet m x + 1 else natGet m x := by
  induction m with
  | nil => simp [natGet_nil]
  | cons p ps ih =>
      have hfst : (if p.1 = k then (p.1, p.2 + 1) else p).1 = p.1 := by
        by_cases hpk : p.1 = k <;> simp [hpk]
      have hsnd : (if p.1 = k then (p.1, p.2 + 1) else p).2 =
          if p.1 = k then p.2 + 1 else p.2 := by
        by_cases hpk : p.1 = k <;> simp [hpk]
      simp only [List.map_cons, natGet_cons, hfst, hsnd, List.any_cons]
      by_cases hpx : p.1 = x
      · by_cases hxk : x = k
        · simp [hpx, hxk, hpx.trans hxk]
        · have hpk : ¬p.1 = k := fun h => hxk (hpx.symm.trans h)
          simp [hpx, hxk, hpk]
      · simp only [if_neg hpx, ih]
        have hcollapse : (decide (p.1 = x) || ps.any fun p => decide (p.1 = x)) =
            (ps.any fun p => decide (p.1 = x)) := by simp [hpx]
        rw [hcollapse]

theorem natGet_mapIncr (m : List (String × Nat)) (k x : String) :
    natGet (mapIncr m k) x = if x = k then natGet m x + 1 else natGet m x := by
  unfold mapIncr
  by_cases hany : m.any (fun p => p.1 = k)
  · rw [if_pos hany, natGet_map_incrAll]
    by_cases hxk : x = k
    · subst hxk
      simp [hany]
    · simp [hxk]
  · rw [if_neg hany]
    unfold natGet
    rw [List.find?_append]
    by_cases hxk : x = k
    · subst hxk
      have hnone : m.find? (fun p => decide (p.1 = x)) = Option.none := by
        rw [List.find?_eq_none]
        intro p hp
        simp only [decide_eq_true_eq]
        intro heq
        exact hany (List.any_eq_true.mpr ⟨p, hp, by simp [heq]⟩)
      rw [hnone]
      simp [List.find?_cons]
    · have hne : ¬k = x := fun h => hxk h.symm
      cases hfind : m.find? (fun p => decide (p.1 = x)) with
      | none => simp [hfind, List.find?_cons, hne, hxk]
      | some p => simp [hfind, hxk]

theorem natGet_foldl_mapIncr (ids : List String) (m : List (String × Nat)) (x : String) :
    natGet (ids.foldl mapIncr m) x = natGet m x + ids.count x := by
  induction ids generalizing m with
  | nil => simp
  | cons a as ih =>
      simp only [List.foldl_cons, ih, natGet_mapIncr, List.count_cons]
      by_cases hxa : x = a
      · subst hxa
        simp only [if_pos rfl, beq_self_eq_true, if_true]
        omega
      · have hne : ¬(x == a) = true := by simp [hxa]
        have hne2 : ¬a = x := fun h => hxa h.symm
        simp [if_neg hxa, hne, hne2]

theorem keys_nodup_mapIncr {m : List (String × Nat)} (h : (m.map (fun p => p.1)).Nodup)
    (k : String) : ((mapIncr m k).map (fun p => p.1)).Nodup := by
  unfold mapIncr
  by_cases hany : m.any (fun p => p.1 = k)
  · rw [if_pos hany]
    have : (m.map (fun p => if p.1 = k then (p.1, p.2 + 1) else p)).map (fun p => p.1)
        = m.map (fun p => p.1) := by
      rw [List.map_map]
      apply List.map_congr_left
      intro p _
      by_cases hpk : p.1 = k <;> simp [hpk]
    rw [this]
    exact h
  · rw [if_neg hany]
    rw [List.map_append]
    simp only [List.map_cons, List.map_nil]
    rw [List.nodup_append]
    refine ⟨h, by simp, ?_⟩
    intro a ha hb
    simp only [List.mem_singleton] at hb
    rcases List.mem_map.mp ha with ⟨p, hp, hpk⟩
    have hany' : ∀ q ∈ m, ¬q.1 = k := fun q hq heq =>
      hany (List.any_eq_true.mpr ⟨q, hq, by simp [heq]⟩)
    exact hany' p hp (hpk.trans hb)

theorem keys_nodup_foldl_mapIncr {m : List (String × Nat)} (ids : List String)
    (h : (m.map (fun p => p.1)).Nodup) :
    ((ids.foldl mapIncr m).map (fun p => p.1)).Nodup := by
  induction ids generalizing m with
  | nil => exact h
  | cons a as ih => exact ih (keys_nodup_mapIncr h a)

/-- With pairwise-distinct keys, any entry of the counter map carries the
value `natGet` reads. -/
theorem natGet_of_mem {m : List (String × Nat)} (hnd : (m.map (fun p => p.1)).Nodup)
    {k : String} {n : Nat} (h : (k, n) ∈ m) : natGet m k = n := by
  induction m with
  | nil => simp at h
  | cons p ps ih =>
      simp only [List.map_cons, List.nodup_cons] at hnd
      rcases List.mem_cons.mp h with rfl | h'
      · simp [natGet_cons]
      · have hpk : ¬p.1 = k := by
          intro heq
          exact hnd.1 (heq ▸ List.mem_map_of_mem (fun p => p.1) h')
        rw [natGet_cons, if_neg hpk]
        exact ih hnd.2 h'

/-- A non-zero count implies the key occurs with exactly that count. -/
theorem mem_of_natGet_pos {m : List (String × Nat)} {k : String} {n : Nat}
    (h : natGet m k = n) (hn : n ≠ 0) : (k, n) ∈ m := by
  unfold natGet at h
  cases hfind : m.find? (fun p => decide (p.1 = k)) with
  | none =>
      rw [hfind] at h
      simp only [Option.map_none', Option.getD_none] at h
      exact (hn h.symm).elim
  | some p =>
      rw [hfind] at h
      simp only [Option.map_some', Option.getD_some] at h
      have hk : p.1 = k := by simpa using List.find?_some hfind
      have hm := List.mem_of_find?_eq_some hfind
      have : p = (k, n) := by
        cases p
        simp only at hk h
        simp [hk, h]
      exact this ▸ hm

/-! ## Lemmas about the facet value folds -/

theorem mem_facet_addFold (fm : FacetMap) (V : List String) (init : List String) (x : String) :
    x ∈ V.foldl (fun results value =>
        match recLookup fm value with
        | Option.some docIds => docIds.foldl SAdd results
        | Option.none => results) init ↔
      x ∈ init ∨ ∃ v ∈ V, x ∈ (recLookup fm v).getD [] := by
  induction V generalizing init with
  | nil => simp
  | cons v vs ih =>
      simp only [List.foldl_cons, ih, List.mem_cons]
      cases hv : recLookup fm v with
      | none =>
          simp only [Option.getD_none]
          constructor
          · rintro (h | ⟨w, hw, hx⟩)
            · exact Or.inl h
            · exact Or.inr ⟨w, Or.inr hw, hx⟩
          · rintro (h | ⟨w, (rfl | hw), hx⟩)
            · exact Or.inl h
            · rw [hv] at hx; simp at hx
            · exact Or.inr ⟨w, hw, hx⟩
      | some ids =>
          simp only [mem_foldl_SAdd, Option.getD_some]
          constructor
          · rintro ((h | h) | ⟨w, hw, hx⟩)
            · exact Or.inl h
            · exact Or.inr ⟨v, Or.inl rfl, by rw [hv]; exact h⟩
            · exact Or.inr ⟨w, Or.inr hw, hx⟩
          · rintro (h | ⟨w, (rfl | hw), hx⟩)
            · exact Or.inl (Or.inl h)
            · rw [hv] at hx; exact Or.inl (Or.inr (by simpa using hx))
            · exact Or.inr ⟨w, hw, hx⟩

theorem mem_facet_delFold (fm : FacetMap) (V : List String) (init : List String) (x : String) :
    x ∈ V.foldl (fun results value =>
        match recLookup fm value with
        | Option.some docIds => docIds.foldl SDel results
        | Option.none => results) init ↔
      x ∈ init ∧ ∀ v ∈ V, x ∉ (recLookup fm v).getD [] := by
  induction V generalizing init with
  | nil => simp
  | cons v vs ih =>
      simp only [List.foldl_cons, ih, List.mem_cons]
      cases hv : recLookup fm v with
      | none =>
          simp only [Option.getD_none]
          constructor
          · rintro ⟨h, hall⟩
            refine ⟨h, ?_⟩
            rintro w (rfl | hw)
            · rw [hv]; simp
            · exact hall w hw
          · rintro ⟨h, hall⟩
            exact ⟨h, fun w hw => hall w (Or.inr hw)⟩
      | some ids =>
          simp only [mem_foldl_SDel, Option.getD_some]
          constructor
          · rintro ⟨⟨h, hni⟩, hall⟩
            refine ⟨h, ?_⟩
            rintro w (rfl | hw)
            · rw [hv]; simpa using hni
            · exact hall w hw
          · rintro ⟨h, hall⟩
            refine ⟨⟨h, ?_⟩, fun w hw => hall w (Or.inr hw)⟩
            have := hall v (Or.inl rfl)
            rw [hv] at this
            simpa using this

theorem nodup_facet_addFold (fm : FacetMap) (V : List String) {init : List String}
    (h : init.Nodup) :
    (V.foldl (fun results value =>
        match recLookup fm value with
        | Option.some docIds => docIds.foldl SAdd results
        | Option.none => results) init).Nodup := by
  induction V generalizing init with
  | nil => exact h
  | cons v vs ih =>
      simp only [List.foldl_cons]
      cases hv : recLookup fm v with
      | none => exact ih h
      | some ids => exact ih (nodup_foldl_SAdd h)

theorem nodup_facet_delFold (fm : FacetMap) (V : List String) {init : List String}
    (h : init.Nodup) :
    (V.foldl (fun results value =>
        match recLookup fm value with
        | Option.some docIds => docIds.foldl SDel results
        | Option.none => results) init).Nodup := by
  induction V generalizing init with
  | nil => exact h
  | cons v vs ih =>
      simp only [List.foldl_cons]
      cases hv : recLookup fm v with
      | none => exact ih h
      | some ids => exact ih (nodup_foldl_SDel h)

theorem natGet_facet_countFold (fm : FacetMap) (V : List String)
    (pm : List (String × Nat)) (x : String) :
    natGet (V.foldl (fun pm value =>
        match recLookup fm value with
        | Option.some docIds => docIds.foldl mapIncr pm
        | Option.none => pm) pm) x =
      natGet pm x + (V.map (fun v => ((recLookup fm v).getD []).count x)).sum := by
  induction V generalizing pm with
  | nil => simp
  | cons v vs ih =>
      simp only [List.foldl_cons, List.map_cons, List.sum_cons]
      cases hv : recLookup fm v with
      | none => rw [ih]; simp [hv]
      | some ids => rw [ih, natGet_foldl_mapIncr]; simp [hv]; omega

theorem keys_nodup_facet_countFold (fm : FacetMap) (V : List String)
    {pm : List (String × Nat)} (h : (pm.map (fun p => p.1)).Nodup) :
    ((V.foldl (fun pm value =>
        match recLookup fm value with
        | Option.some docIds => docIds.foldl mapIncr pm
        | Option.none => pm) pm).map (fun p => p.1)).Nodup := by
  induction V generalizing pm with
  | nil => exact h
  | cons v vs ih =>
      simp only [List.foldl_cons]
      cases hv : recLookup fm v with
      | none => exact ih h
      | some ids => exact ih (keys_nodup_foldl_mapIncr ids h)

/-! ## Bridging lemmas for the engine -/

theorem univ_fold_eq (docs : List ManuscriptEntry) (init : List String) :
    docs.foldl (fun results doc => SAdd results doc.id) init =
      (docs.map (fun d => d.id)).foldl SAdd init := by
  rw [List.foldl_map]

theorem idToDoc_isSome_eq (docs : List ManuscriptEntry) (id : String) :
    (idToDoc docs id).isSome = docs.any (fun d => d.id = id) := by
  rw [Bool.eq_iff_iff, Option.isSome_iff_ne_none]
  constructor
  · intro hne
    by_contra hall
    apply hne
    rw [idToDoc_eq_none_iff]
    intro d hd heq
    exact hall (List.any_eq_true.mpr ⟨d, hd, by simpa using heq⟩)
  · intro hany hnone
    rcases List.any_eq_true.mp hany with ⟨d, hd, hid⟩
    exact (idToDoc_eq_none_iff.mp hnone) d hd (by simpa using hid)

theorem map_filterMap_fst {α β : Type} (g : α → Option β) (f : β → α) (l : List α)
    (h : ∀ a b, g a = some b → f b = a) :
    (l.filterMap g).map f = l.filter (fun a => (g a).isSome) := by
  induction l with
  | nil => rfl
  | cons a as ih =>
      cases hg : g a with
      | none =>
          rw [List.filterMap_cons_none hg, ih, List.filter_cons]
          simp [hg]
      | some b =>
          rw [List.filterMap_cons_some hg, List.map_cons, h a b hg, ih, List.filter_cons]
          simp [hg]

/-! ## C1: the engine fold refines the left-nested boolean tree -/

theorem nestedBoolean_execute (index : SearchIndex) (operator : BooleanOperator)
    (rest : List SearchOperation) (acc : SearchOperation) :
    (nestedBoolean acc rest operator).execute index =
      rest.foldl (fun resultIds op => combineIds operator resultIds (op.execute index))
        (acc.execute index) := by
  induction rest generalizing acc with
  | nil => rfl
  | cons op ops ih =>
      show (nestedBoolean (SearchOperation.boolean acc op operator) ops operator).execute index = _
      rw [ih]
      rfl

/-- C1: for every index, every operator, and every list of two or more
operations, the ID list computed by the left-to-right fold of
`ManuscriptSearch.search` coincides (exactly, hence also as an ID set) with
the result of executing the left-nested `BooleanSearch` tree built from the
same operations under the same operator. -/
theorem search_fold_eq_nestedBoolean (index : SearchIndex) (operator : BooleanOperator)
    (op1 op2 : SearchOperation) (rest : List SearchOperation) :
    searchIds index { operations := op1 :: op2 :: rest, operator := some operator } =
      (nestedBoolean op1 (op2 :: rest) operator).execute index := by
  rw [nestedBoolean_execute]
  rfl

/-- C2: for every index, every facet type present in `index.facets`, and
every value list (empty or not), `FacetSearch` with `none` returns exactly
the ids of `index.documents` minus the result of the same search with `any`:
the exact complement of `any` over the full document universe. -/
theorem facetSearch_none_is_complement (index : SearchIndex) (ftype : String)
    (V : List String) (fm : FacetMap) (id : String)
    (h : recLookup index.facets ftype = some fm) :
    id ∈ FacetSearch.execute index
        { facetType := ftype, values := V, matchType := some FacetMatchType.none } ↔
      id ∈ index.documents.map (fun d => d.id) ∧
        id ∉ FacetSearch.execute index
          { facetType := ftype, values := V, matchType := some FacetMatchType.any } := by
  unfold FacetSearch.execute
  simp only [h, Option.getD_some]
  rw [mem_facet_delFold, mem_facet_addFold, univ_fold_eq, mem_foldl_SAdd]
  simp only [List.not_mem_nil, false_or]
  constructor
  · rintro ⟨hmem, hall⟩
    refine ⟨hmem, ?_⟩
    rintro ⟨v, hv, hid⟩
    exact hall v hv hid
  · rintro ⟨hmem, hnone⟩
    exact ⟨hmem, fun v hv hid => hnone ⟨v, hv, hid⟩⟩

/-! ## A small concrete index used to witness the hypothesis-bearing
theorems (the three-document example of the specification). -/

/-- Example document A. -/
def docA : ManuscriptEntry :=
  { id := "A", title := "Book of Hours", shelfmark := "MS 1", repository := "R1",
    authors := ["Anon"], origin_location := "Paris", languages := ["la"],
    material_keywords := ["parchment"], script_keywords := ["gothic"],
    brief := "a book of hours", start_year := some 1200, end_year := some 1250 }

/-- Example document B. -/
def docB : ManuscriptEntry :=
  { id := "B", title := "Psalter", shelfmark := "MS 2", repository := "R1",
    authors := [], origin_location := "Reims", languages := ["la", "fr"],
    material_keywords := ["parchment"], script_keywords := [],
    brief := "a psalter", start_year := some 1300, end_year := some 1310 }

/-- Example document C. -/
def docC : ManuscriptEntry :=
  { id := "C", title := "Roman de la Rose", shelfmark := "MS 3", repository := "R2",
    authors := ["Guillaume"], origin_location := "Orleans", languages := ["fr"],
    material_keywords := [], script_keywords := [],
    brief := "a romance", start_year := some 1400, end_year := some 1420 }

/-- The example index over documents A, B, C. -/
def exIndex : SearchIndex :=
  { metadata := { version := 1, manuscriptCount := 3, generatedDate := "2024-01-01" }
    documents := [docA, docB, docC]
    facets := [("languages", [("la", ["A", "B"]), ("fr", ["B", "C"])]),
               ("repository", [("R1", ["A", "B"]), ("R2", ["C"])])] }

/-- Witness for C2 at the example index: `C` is outside the `any` result for
`["la"]` and inside the `none` result. -/
theorem facetSearch_none_is_complement_witness :
    "C" ∈ FacetSearch.execute exIndex
        { facetType := "languages", values := ["la"], matchType := some FacetMatchType.none } ↔
      "C" ∈ exIndex.documents.map (fun d => d.id) ∧
        "C" ∉ FacetSearch.execute exIndex
          { facetType := "languages", values := ["la"], matchType := some FacetMatchType.any } :=
  facetSearch_none_is_complement exIndex "languages" ["la"]
    [("la", ["A", "B"]), ("fr", ["B", "C"])] "C" (by decide)

/-- C9: for every index and query, the projection of the matched ID set to
documents silently drops every id that is not the id of any document (first
removing all such ids leaves the projected items unchanged, and no error
value exists anywhere in the pipeline), and the returned `total` counts only
the successfully projected documents. -/
theorem stale_ids_silently_dropped (index : SearchIndex) (query : SearchQuery) :
    (ManuscriptSearch.search index query).total =
        (ManuscriptSearch.search index query).items.length ∧
      (ManuscriptSearch.search index query).items =
        ((searchIds index query).filter
            (fun id => index.documents.any (fun d => d.id = id))).filterMap
          (idToDoc index.documents) := by
  constructor
  · rfl
  · show (searchIds index query).filterMap (idToDoc index.documents) = _
    rw [List.filter_congr
      (fun id _ => (idToDoc_isSome_eq index.documents id).symm :
        ∀ id ∈ searchIds index query,
          (index.documents.any (fun d => d.id = id)) = (idToDoc index.documents id).isSome)]
    rw [filterMap_filter_isSome]

/-! ## C10: invariants of the search result -/

theorem combineIds_nodup (operator : BooleanOperator) (r1 r2 : List String)
    (h1 : r1.Nodup) : (combineIds operator r1 r2).Nodup := by
  cases operator with
  | AND =>
      exact nodup_foldl_addIf r1 (fun id => id ∈ r2) (fun id => id) [] List.nodup_nil
  | OR => exact nodup_foldl_SAdd h1
  | NOT => exact nodup_foldl_SDel h1

theorem execute_nodup (op : SearchOperation) (index : SearchIndex) :
    (op.execute index).Nodup := by
  induction op with
  | text opts =>
      exact nodup_foldl_addIf index.documents (fun doc => docMatchesText opts doc)
        (fun doc => doc.id) [] List.nodup_nil
  | facet opts =>
      unfold SearchOperation.execute FacetSearch.execute
      dsimp only
      cases recLookup index.facets opts.facetType with
      | none => exact List.nodup_nil
      | some fm =>
          dsimp only
          cases opts.matchType.getD FacetMatchType.any with
          | any => exact nodup_facet_addFold fm opts.values List.nodup_nil
          | all =>
              dsimp only
              by_cases hv : opts.values.length = 0
              · rw [if_pos hv]
                exact List.nodup_nil
              · rw [if_neg hv]
                exact nodup_foldl_addIf _
                  (fun (p : String × Nat) => p.2 = opts.values.length)
                  (fun (p : String × Nat) => p.1) [] List.nodup_nil
          | none =>
              dsimp only
              apply nodup_facet_delFold
              rw [univ_fold_eq]
              exact nodup_foldl_SAdd List.nodup_nil
  | date opts =>
      exact nodup_foldl_addIf index.documents (fun doc => dateMatches opts doc)
        (fun doc => doc.id) [] List.nodup_nil
  | boolean op1 op2 operator ih1 ih2 =>
      exact combineIds_nodup operator _ _ ih1

theorem searchIds_nodup (index : SearchIndex) (query : SearchQuery) :
    (searchIds index query).Nodup := by
  have H : ∀ (ops : List SearchOperation) (r : List String), r.Nodup →
      (ops.foldl (fun resultIds op =>
        combineIds (query.operator.getD BooleanOperator.AND) resultIds
          (op.execute index)) r).Nodup := by
    intro ops
    induction ops with
    | nil => exact fun r h => h
    | cons op ops ih =>
        intro r h
        exact ih _ (combineIds_nodup _ r _ h)
  unfold searchIds
  cases hops : query.operations with
  | nil =>
      show ((index.documents.map (fun doc => doc.id)).foldl SAdd []).Nodup
      exact nodup_foldl_SAdd List.nodup_nil
  | cons firstOp rest =>
      cases rest with
      | nil =>
          show (firstOp.execute index).Nodup
          exact execute_nodup firstOp index
      | cons secondOp restOps =>
          show ((secondOp :: restOps).foldl (fun resultIds op =>
            combineIds (query.operator.getD BooleanOperator.AND) resultIds
              (op.execute index)) (firstOp.execute index)).Nodup
          exact H _ _ (execute_nodup firstOp index)

/-- C10: for every index with pairwise-distinct document ids and every query,
the result of `ManuscriptSearch.search` contains no document twice, contains
only documents of the index, reports `total` as the item count, and its items
are the complete matched collection (their ids are exactly the matched ids
that resolve to a document — no pagination happens in the core). -/
theorem search_result_invariants (index : SearchIndex) (query : SearchQuery)
    (h : (index.documents.map (fun d => d.id)).Nodup) :
    (ManuscriptSearch.search index query).items.Nodup ∧
      (∀ it ∈ (ManuscriptSearch.search index query).items, it ∈ index.documents) ∧
      (ManuscriptSearch.search index query).total =
        (ManuscriptSearch.search index query).items.length ∧
      (ManuscriptSearch.search index query).items.map (fun d => d.id) =
        (searchIds index query).filter
          (fun id => index.documents.any (fun d => d.id = id)) := by
  have hmap : (ManuscriptSearch.search index query).items.map (fun d => d.id) =
      (searchIds index query).filter (fun id => (idToDoc index.documents id).isSome) := by
    show ((searchIds index query).filterMap (idToDoc index.documents)).map (fun d => d.id) = _
    exact map_filterMap_fst (idToDoc index.documents) (fun d => d.id) _
      (fun a b hb => (idToDoc_eq_some hb).2)
  refine ⟨?_, ?_, rfl, ?_⟩
  · apply List.Nodup.of_map (fun d => d.id)
    rw [hmap]
    exact List.Nodup.filter _ (searchIds_nodup index query)
  · intro it hit
    rcases List.mem_filterMap.mp hit with ⟨id, hid, hsome⟩
    exact (idToDoc_eq_some hsome).1
  · rw [hmap]
    exact List.filter_congr (fun id _ => idToDoc_isSome_eq index.documents id)

/-- Witness for C10 at the example index: the result of a facet query has
duplicate-free items. -/
theorem search_result_invariants_witness :
    (ManuscriptSearch.search exIndex
      { operations := [SearchOperation.facet
          { facetType := "languages", values := ["fr", "la"] }] }).items.Nodup :=
  (search_result_invariants exIndex
    { operations := [SearchOperation.facet
        { facetType := "languages", values := ["fr", "la"] }] } (by decide)).1


/-! ## C4: date range semantics -/

theorem mem_dateRange_execute (index : SearchIndex) (opts : DateRangeSearchOptions)
    (x : String) :
    x ∈ DateRangeSearch.execute index opts ↔
      ∃ doc ∈ index.documents, dateMatches opts doc ∧ doc.id = x := by
  unfold DateRangeSearch.execute
  rw [mem_foldl_addIf index.documents (fun doc => dateMatches opts doc)
    (fun doc => doc.id) [] x]
  simp

theorem dateMatches_falsy (opts : DateRangeSearchOptions) (doc : ManuscriptEntry)
    (h : doc.start_year = Option.none ∨ doc.start_year = some 0 ∨
      doc.end_year = Option.none ∨ doc.end_year = some 0) :
    dateMatches opts doc = false := by
  unfold dateMatches
  cases hs : doc.start_year with
  | none => rfl
  | some sy =>
      cases he : doc.end_year with
      | none => rfl
      | some ey =>
          dsimp only
          rcases h with h | h | h | h
          · rw [hs] at h; exact absurd h (by simp)
          · rw [hs] at h
            simp only [Option.some.injEq] at h
            subst h
            simp
          · rw [he] at h; exact absurd h (by simp)
          · rw [he] at h
            simp only [Option.some.injEq] at h
            subst h
            simp

theorem dateMatches_between (y endY sy ey : Int) (doc : ManuscriptEntry)
    (hsy : doc.start_year = some sy) (hey : doc.end_year = some ey)
    (hsy0 : sy ≠ 0) (hey0 : ey ≠ 0) :
    dateMatches ⟨DateRangeType.between, y, some endY⟩ doc =
      ((sy ≤ y && ey ≥ y) || (sy ≤ endY && ey ≥ endY) || (sy ≥ y && ey ≤ endY)) := by
  unfold dateMatches
  rw [hsy, hey]
  dsimp only
  rw [if_neg (by simp [hsy0, hey0])]

theorem dateMatches_between_noEnd (y : Int) (doc : ManuscriptEntry) :
    dateMatches ⟨DateRangeType.between, y, Option.none⟩ doc = false := by
  unfold dateMatches
  cases doc.start_year with
  | none => rfl
  | some sy =>
      cases doc.end_year with
      | none => rfl
      | some ey =>
          dsimp only
          by_cases h0 : (decide (sy = 0) || decide (ey = 0)) = true
          · rw [if_pos h0]
          · rw [if_neg h0]

/-- C4: documents with a missing or zero bound are excluded from every date
query; `between` with an end year matches (for documents with sound nonzero
bounds) exactly when the document interval overlaps the query interval; and
`between` without an end year matches nothing. -/
theorem dateRangeSearch_correct (index : SearchIndex)
    (hids : (index.documents.map (fun d => d.id)).Nodup) :
    (∀ (opts : DateRangeSearchOptions) (doc : ManuscriptEntry), doc ∈ index.documents →
      (doc.start_year = Option.none ∨ doc.start_year = some 0 ∨
        doc.end_year = Option.none ∨ doc.end_year = some 0) →
      doc.id ∉ DateRangeSearch.execute index opts) ∧
    (∀ (y endY sy ey : Int) (doc : ManuscriptEntry), doc ∈ index.documents →
      doc.start_year = some sy → doc.end_year = some ey → sy ≠ 0 → ey ≠ 0 →
      sy ≤ ey → y ≤ endY →
      (doc.id ∈ DateRangeSearch.execute index ⟨DateRangeType.between, y, some endY⟩ ↔
        (sy ≤ endY ∧ y ≤ ey))) ∧
    (∀ y : Int, DateRangeSearch.execute index ⟨DateRangeType.between, y, Option.none⟩ = []) := by
  refine ⟨?_, ?_, ?_⟩
  · intro opts doc hdoc hfalsy hmem
    rcases (mem_dateRange_execute index opts doc.id).mp hmem with ⟨d, hd, hmatch, hid⟩
    have hde : d = doc := List.inj_on_of_nodup_map hids hd hdoc hid
    subst hde
    rw [dateMatches_falsy opts d hfalsy] at hmatch
    exact Bool.false_ne_true hmatch
  · intro y endY sy ey doc hdoc hsy hey hsy0 hey0 hsound hq
    rw [mem_dateRange_execute]
    constructor
    · rintro ⟨d, hd, hmatch, hid⟩
      have hde : d = doc := List.inj_on_of_nodup_map hids hd hdoc hid
      subst hde
      rw [dateMatches_between y endY sy ey d hsy hey hsy0 hey0] at hmatch
      simp only [ge_iff_le, Bool.or_eq_true, Bool.and_eq_true, decide_eq_true_eq] at hmatch
      omega
    · rintro ⟨h1, h2⟩
      refine ⟨doc, hdoc, ?_, rfl⟩
      rw [dateMatches_between y endY sy ey doc hsy hey hsy0 hey0]
      simp only [ge_iff_le, Bool.or_eq_true, Bool.and_eq_true, decide_eq_true_eq]
      omega
  · intro y
    unfold DateRangeSearch.execute
    have hconst : ∀ (docs : List ManuscriptEntry) (init : List String),
        docs.foldl (fun (results : List String) (_ : ManuscriptEntry) => results) init
          = init := by
      intro docs
      induction docs with
      | nil => exact fun _ => rfl
      | cons d ds ih => exact fun init => ih init
    simp only [dateMatches_between_noEnd, Bool.false_eq_true, if_false]
    exact hconst index.documents []

/-- Witness for C4 at the example index: the `between 1290 1350` query
contains document B exactly as the overlap condition prescribes. -/
theorem dateRangeSearch_correct_witness :
    "B" ∈ DateRangeSearch.execute exIndex ⟨DateRangeType.between, 1290, some 1350⟩ ↔
      ((1300 : Int) ≤ 1350 ∧ (1290 : Int) ≤ 1310) :=
  (dateRangeSearch_correct exIndex (by decide)).2.1 1290 1350 1300 1310 docB
    (by decide) (by decide) (by decide) (by decide) (by decide) (by decide) (by decide)

/-! ## C5: facet `all` is the intersection -/

theorem sum_le_length_of_le_one (V : List String) (f : String → Nat)
    (hb : ∀ v ∈ V, f v ≤ 1) : (V.map f).sum ≤ V.length := by
  induction V with
  | nil => simp
  | cons v vs ih =>
      simp only [List.map_cons, List.sum_cons, List.length_cons]
      have hv := hb v (List.mem_cons_self v vs)
      have := ih (fun w hw => hb w (List.mem_cons_of_mem v hw))
      omega

theorem sum_eq_length_iff_all_one (V : List String) (f : String → Nat)
    (hb : ∀ v ∈ V, f v ≤ 1) :
    (V.map f).sum = V.length ↔ ∀ v ∈ V, f v = 1 := by
  induction V with
  | nil => simp
  | cons v vs ih =>
      simp only [List.map_cons, List.sum_cons, List.length_cons]
      have hv := hb v (List.mem_cons_self v vs)
      have hbs : ∀ w ∈ vs, f w ≤ 1 := fun w hw => hb w (List.mem_cons_of_mem v hw)
      have hle := sum_le_length_of_le_one vs f hbs
      constructor
      · intro he
        have hfv : f v = 1 := by omega
        have hsum : (vs.map f).sum = vs.length := by omega
        intro w hw
        rcases List.mem_cons.mp hw with rfl | hw'
        · exact hfv
        · exact ((ih hbs).mp hsum) w hw'
      · intro hall
        have hfv := hall v (List.mem_cons_self v vs)
        have hrest := (ih hbs).mpr (fun w hw => hall w (List.mem_cons_of_mem v hw))
        omega

/-- C5: for every index, facet type present in the index, and value list,
`FacetSearch` with `all` (given each facet id array is duplicate-free)
returns exactly the intersection over the requested values of the per-value
ID sets, a value absent from the mapping contributing the empty set; an
empty value list yields the empty set (the `V ≠ []` conjunct). -/
theorem facetSearch_all_is_intersection (index : SearchIndex) (ftype : String)
    (V : List String) (fm : FacetMap) (id : String)
    (h : recLookup index.facets ftype = some fm)
    (hnd : ∀ p ∈ fm, (p.2 : List String).Nodup) :
    id ∈ FacetSearch.execute index
        { facetType := ftype, values := V, matchType := some FacetMatchType.all } ↔
      (V ≠ [] ∧ ∀ v ∈ V, id ∈ (recLookup fm v).getD []) := by
  have hndv : ∀ v : String, ((recLookup fm v).getD []).Nodup := by
    intro v
    unfold recLookup
    cases hf : fm.find? (fun p => p.1 = v) with
    | none => simp
    | some p => simpa using hnd p (List.mem_of_find?_eq_some hf)
  unfold FacetSearch.execute
  simp only [h, Option.getD_some]
  dsimp only
  by_cases hV : V.length = 0
  · rw [if_pos hV]
    have : V = [] := List.length_eq_zero.mp hV
    simp [this]
  · rw [if_neg hV]
    rw [mem_foldl_addIf _ (fun (p : String × Nat) => p.2 = V.length)
      (fun (p : String × Nat) => p.1) [] id]
    simp only [List.not_mem_nil, false_or]
    have hkeys : ((V.foldl (fun pm value =>
        match recLookup fm value with
        | Option.some docIds => docIds.foldl mapIncr pm
        | Option.none => pm) []).map (fun p => p.1)).Nodup :=
      keys_nodup_facet_countFold fm V (by simp)
    have hget : natGet (V.foldl (fun pm value =>
        match recLookup fm value with
        | Option.some docIds => docIds.foldl mapIncr pm
        | Option.none => pm) []) id =
        (V.map (fun v => ((recLookup fm v).getD []).count id)).sum := by
      rw [natGet_facet_countFold]
      simp [natGet_nil]
    have hbound : ∀ v ∈ V, ((recLookup fm v).getD []).count id ≤ 1 :=
      fun v _ => List.nodup_iff_count_le_one.mp (hndv v) id
    have hVne : V ≠ [] := fun he => hV (by simp [he])
    constructor
    · rintro ⟨p, hp, hlen, hfst⟩
      refine ⟨hVne, ?_⟩
      have hpe : p = (id, V.length) := by
        cases p
        simp only at hlen hfst
        simp [hlen, hfst]
      subst hpe
      have hnat := natGet_of_mem hkeys hp
      rw [hget] at hnat
      have hall := (sum_eq_length_iff_all_one V _ hbound).mp hnat
      intro v hv
      have h1 := hall v hv
      exact List.count_pos_iff.mp (by omega)
    · rintro ⟨_, hall⟩
      have hone : ∀ v ∈ V, ((recLookup fm v).getD []).count id = 1 := by
        intro v hv
        have hpos : 0 < ((recLookup fm v).getD []).count id :=
          List.count_pos_iff.mpr (hall v hv)
        have := hbound v hv
        omega
      have hsum : (V.map (fun v => ((recLookup fm v).getD []).count id)).sum = V.length :=
        (sum_eq_length_iff_all_one V _ hbound).mpr hone
      have hnat : natGet (V.foldl (fun pm value =>
          match recLookup fm value with
          | Option.some docIds => docIds.foldl mapIncr pm
          | Option.none => pm) []) id = V.length := by
        rw [hget, hsum]
      have hmem := mem_of_natGet_pos hnat (by omega)
      exact ⟨(id, V.length), hmem, rfl, rfl⟩

/-- Witness for C5 at the example index: `B` is in the `all` result for
`["la", "fr"]` and in both per-value ID sets. -/
theorem facetSearch_all_is_intersection_witness :
    "B" ∈ FacetSearch.execute exIndex
        { facetType := "languages", values := ["la", "fr"],
          matchType := some FacetMatchType.all } ↔
      (["la", "fr"] ≠ [] ∧ ∀ v ∈ ["la", "fr"],
        "B" ∈ (recLookup [("la", ["A", "B"]), ("fr", ["B", "C"])] v).getD []) :=
  facetSearch_all_is_intersection exIndex "languages" ["la", "fr"]
    [("la", ["A", "B"]), ("fr", ["B", "C"])] "B" (by decide) (by decide)

/-! ## C7: pagination of the `/search` route -/

theorem le_jsCeilDiv_mul (len limit : Nat) (hl : 1 ≤ limit) :
    len ≤ jsCeilDiv len limit * limit := by
  unfold jsCeilDiv
  by_contra hlt
  push_neg at hlt
  have h1 : (len + limit - 1) / limit * limit + 1 ≤ len := hlt
  have h2 : ((len + limit - 1) / limit + 1) * limit ≤ len + limit - 1 := by
    rw [Nat.add_mul, one_mul]
    omega
  have h3 : (len + limit - 1) / limit + 1 ≤ (len + limit - 1) / limit :=
    (Nat.le_div_iff_mul_le (by omega)).mpr h2
  omega

theorem flatten_take_chunks {α : Type} (l : List α) (limit : Nat) (n : Nat) :
    ((List.range n).map (fun i => (l.drop (i * limit)).take limit)).flatten =
      l.take (n * limit) := by
  induction n with
  | zero => simp
  | succ m ih =>
      rw [List.range_succ, List.map_append, List.flatten_append, ih]
      simp only [List.map_cons, List.map_nil, List.flatten_cons, List.flatten_nil,
        List.append_nil]
      rw [← List.take_add, Nat.succ_mul]

/-- C7: at the `/search` route, for pages and limits at least 1, the returned
items are the `(page-1)*limit .. page*limit` slice of the matched list;
concatenating pages `1 .. totalPages` reproduces the matched list exactly;
`total` is the full match count on every page; and any page beyond
`totalPages` yields an empty item slice. -/
theorem route_pagination_correct (matched : List ManuscriptEntry) (page limit : Nat)
    (hl : 1 ≤ limit) (hp : 1 ≤ page) :
    (routePaginate matched page limit).items =
        (matched.drop ((page - 1) * limit)).take limit ∧
      ((List.range (jsCeilDiv matched.length limit)).map
          (fun i => (routePaginate matched (i + 1) limit).items)).flatten = matched ∧
      (routePaginate matched page limit).total = matched.length ∧
      (jsCeilDiv matched.length limit < page →
        (routePaginate matched page limit).items = []) := by
  have hitems : ∀ q : Nat, (routePaginate matched q limit).items =
      (matched.drop ((q - 1) * limit)).take limit := by
    intro q
    show jsSlice matched ((q - 1) * limit) ((q - 1) * limit + limit) = _
    unfold jsSlice
    congr 1
    omega
  refine ⟨hitems page, ?_, rfl, ?_⟩
  · have hcongr : ((List.range (jsCeilDiv matched.length limit)).map
        (fun i => (routePaginate matched (i + 1) limit).items)) =
        ((List.range (jsCeilDiv matched.length limit)).map
          (fun i => (matched.drop (i * limit)).take limit)) := by
      apply List.map_congr_left
      intro i _
      rw [hitems (i + 1)]
      simp
    rw [hcongr, flatten_take_chunks]
    exact List.take_of_length_le (le_jsCeilDiv_mul matched.length limit hl)
  · intro hbig
    rw [hitems page]
    have hdrop : matched.length ≤ (page - 1) * limit := by
      have h1 : matched.length ≤ jsCeilDiv matched.length limit * limit :=
        le_jsCeilDiv_mul matched.length limit hl
      have h2 : jsCeilDiv matched.length limit * limit ≤ (page - 1) * limit :=
        Nat.mul_le_mul_right limit (by omega)
      omega
    rw [List.drop_eq_nil_of_le hdrop]
    simp

/-- Witness for C7: three documents, limit 2, page 1. -/
theorem route_pagination_correct_witness :
    (routePaginate [docA, docB, docC] 1 2).items =
        (([docA, docB, docC].drop ((1 - 1) * 2)).take 2) ∧
      ((List.range (jsCeilDiv ([docA, docB, docC] : List ManuscriptEntry).length 2)).map
          (fun i => (routePaginate [docA, docB, docC] (i + 1) 2).items)).flatten =
        [docA, docB, docC] ∧
      (routePaginate [docA, docB, docC] 1 2).total =
        ([docA, docB, docC] : List ManuscriptEntry).length ∧
      (jsCeilDiv ([docA, docB, docC] : List ManuscriptEntry).length 2 < 1 →
        (routePaginate [docA, docB, docC] 1 2).items = []) :=
  route_pagination_correct [docA, docB, docC] 1 2 (by decide) (by decide)

/-! ## C6: facet counts versus re-tallying over the returned items -/

theorem tallyEntry_languages (acc : FacetCounts) (it : ManuscriptEntry) :
    (tallyEntry acc it).languages = it.languages.foldl mapIncr acc.languages := by
  unfold tallyEntry
  cases it.transcription_status with
  | none => by_cases hr : it.repository ≠ "" <;> simp [hr]
  | some ts =>
      by_cases hr : it.repository ≠ "" <;> by_cases h2 : ts = "" <;> simp [hr, h2]

theorem tallyEntry_material (acc : FacetCounts) (it : ManuscriptEntry) :
    (tallyEntry acc it).material_keywords =
      it.material_keywords.foldl mapIncr acc.material_keywords := by
  unfold tallyEntry
  cases it.transcription_status with
  | none => by_cases hr : it.repository ≠ "" <;> simp [hr]
  | some ts =>
      by_cases hr : it.repository ≠ "" <;> by_cases h2 : ts = "" <;> simp [hr, h2]

theorem tallyEntry_script (acc : FacetCounts) (it : ManuscriptEntry) :
    (tallyEntry acc it).script_keywords =
      it.script_keywords.foldl mapIncr acc.script_keywords := by
  unfold tallyEntry
  cases it.transcription_status with
  | none => by_cases hr : it.repository ≠ "" <;> simp [hr]
  | some ts =>
      by_cases hr : it.repository ≠ "" <;> by_cases h2 : ts = "" <;> simp [hr, h2]

theorem tallyEntry_repository (acc : FacetCounts) (it : ManuscriptEntry) :
    (tallyEntry acc it).repository =
      if it.repository ≠ "" then mapIncr acc.repository it.repository
      else acc.repository := by
  unfold tallyEntry
  cases it.transcription_status with
  | none => by_cases hr : it.repository ≠ "" <;> simp [hr]
  | some ts =>
      by_cases hr : it.repository ≠ "" <;> by_cases h2 : ts = "" <;> simp [hr, h2]

theorem tallyEntry_transcription (acc : FacetCounts) (it : ManuscriptEntry) :
    (tallyEntry acc it).transcription_status =
      (match it.transcription_status with
      | Option.some ts =>
          if ts ≠ "" then mapIncr acc.transcription_status ts
          else acc.transcription_status
      | Option.none => acc.transcription_status) := by
  unfold tallyEntry
  cases it.transcription_status with
  | none => by_cases hr : it.repository ≠ "" <;> simp [hr]
  | some ts =>
      by_cases hr : it.repository ≠ "" <;> by_cases h2 : ts = "" <;> simp [hr, h2]

theorem calc_languages_sum (items : List ManuscriptEntry) (acc : FacetCounts) (v : String) :
    natGet ((items.foldl tallyEntry acc).languages) v =
      natGet acc.languages v + (items.map (fun it => it.languages.count v)).sum := by
  induction items generalizing acc with
  | nil => simp
  | cons it its ih =>
      simp only [List.foldl_cons, List.map_cons, List.sum_cons, ih,
        tallyEntry_languages, natGet_foldl_mapIncr]
      omega

theorem calc_material_sum (items : List ManuscriptEntry) (acc : FacetCounts) (v : String) :
    natGet ((items.foldl tallyEntry acc).material_keywords) v =
      natGet acc.material_keywords v +
        (items.map (fun it => it.material_keywords.count v)).sum := by
  induction items generalizing acc with
  | nil => simp
  | cons it its ih =>
      simp only [List.foldl_cons, List.map_cons, List.sum_cons, ih,
        tallyEntry_material, natGet_foldl_mapIncr]
      omega

theorem calc_script_sum (items : List ManuscriptEntry) (acc : FacetCounts) (v : String) :
    natGet ((items.foldl tallyEntry acc).script_keywords) v =
      natGet acc.script_keywords v +
        (items.map (fun it => it.script_keywords.count v)).sum := by
  induction items generalizing acc with
  | nil => simp
  | cons it its ih =>
      simp only [List.foldl_cons, List.map_cons, List.sum_cons, ih,
        tallyEntry_script, natGet_foldl_mapIncr]
      omega

theorem calc_repository_sum (items : List ManuscriptEntry) (acc : FacetCounts) (v : String) :
    natGet ((items.foldl tallyEntry acc).repository) v =
      natGet acc.repository v +
        (items.map (fun it =>
          if it.repository ≠ "" ∧ it.repository = v then 1 else 0)).sum := by
  induction items generalizing acc with
  | nil => simp
  | cons it its ih =>
      simp only [List.foldl_cons, List.map_cons, List.sum_cons, ih, tallyEntry_repository]
      by_cases hr : it.repository ≠ ""
      · rw [if_pos hr, natGet_mapIncr]
        by_cases hv : v = it.repository
        · rw [if_pos hv, if_pos ⟨hr, hv.symm⟩]
          omega
        · rw [if_neg hv, if_neg (fun hc => hv hc.2.symm)]
          omega
      · rw [if_neg hr, if_neg (fun hc => hr hc.1)]
        omega

theorem calc_transcription_sum (items : List ManuscriptEntry) (acc : FacetCounts)
    (v : String) :
    natGet ((items.foldl tallyEntry acc).transcription_status) v =
      natGet acc.transcription_status v +
        (items.map (fun it =>
          match it.transcription_status with
          | Option.some ts => if ts ≠ "" ∧ ts = v then 1 else 0
          | Option.none => 0)).sum := by
  induction items generalizing acc with
  | nil => simp
  | cons it its ih =>
      simp only [List.foldl_cons, List.map_cons, List.sum_cons, ih, tallyEntry_transcription]
      cases hts : it.transcription_status with
      | none =>
          dsimp only
          omega
      | some ts =>
          dsimp only
          by_cases h2 : ts ≠ ""
          · rw [if_pos h2, natGet_mapIncr]
            by_cases hv : v = ts
            · rw [if_pos hv, if_pos ⟨h2, hv.symm⟩]
              omega
            · rw [if_neg hv, if_neg (fun hc => hv hc.2.symm)]
              omega
          · rw [if_neg h2, if_neg (fun hc => h2 hc.1)]
            omega

theorem sum_ite_eq_countP (items : List ManuscriptEntry) (p : ManuscriptEntry → Prop)
    [DecidablePred p] :
    (items.map (fun it => if p it then 1 else 0)).sum = items.countP (fun it => p it) := by
  induction items with
  | nil => rfl
  | cons it its ih =>
      simp only [List.map_cons, List.sum_cons, List.countP_cons, ih]
      by_cases hp : p it
      · simp [hp]
        omega
      · simp [hp]

theorem sum_count_eq_countP (items : List ManuscriptEntry)
    (f : ManuscriptEntry → List String) (v : String)
    (hnd : ∀ it ∈ items, (f it).Nodup) :
    (items.map (fun it => (f it).count v)).sum = items.countP (fun it => v ∈ f it) := by
  induction items with
  | nil => rfl
  | cons it its ih =>
      simp only [List.map_cons, List.sum_cons, List.countP_cons]
      rw [ih (fun w hw => hnd w (List.mem_cons_of_mem it hw))]
      by_cases hv : v ∈ f it
      · rw [List.count_eq_one_of_mem (hnd it (List.mem_cons_self it its)) hv]
        simp [hv]
        omega
      · rw [List.count_eq_zero.mpr hv]
        simp [hv]

/-- The document with a duplicated `languages` entry used to refute C6 as
stated. -/
def dupDoc : ManuscriptEntry :=
  { id := "D", title := "Duplicated", shelfmark := "MS 9", repository := "R9",
    authors := [], origin_location := "x", languages := ["la", "la"],
    material_keywords := [], script_keywords := [], brief := "dup" }

/-- The one-document index used to refute C6 as stated. -/
def dupIndex : SearchIndex :=
  { metadata := { version := 1, manuscriptCount := 1, generatedDate := "2024-01-01" }
    documents := [dupDoc]
    facets := [("languages", [("la", ["D"])])] }

/-- Counterexample to C6 as stated: a document listing the value `la` twice
in `languages` is counted twice, so the recorded count (2) is not the number
of returned items holding the value (1). -/
theorem facet_counts_retally_counterexample :
    ¬ (natGet (ManuscriptSearch.search dupIndex { operations := [] }).facetCounts.languages
          "la" =
        (ManuscriptSearch.search dupIndex { operations := [] }).items.countP
          (fun it => "la" ∈ it.languages)) := by
  decide

/-- C6 (amended): for indexes whose documents carry duplicate-free facet
arrays, a non-empty repository string, and (when present) a non-empty
transcription status, re-tallying the returned items reproduces
`facetCounts` exactly over all five counters of the runtime
`calculateFacetCounts` — the count per facet type and value equals the
number of returned items holding that value (in general the recorded count
is the total number of occurrences across items, and empty-string
repository or transcription-status values are skipped). -/
theorem facet_counts_retally (index : SearchIndex) (query : SearchQuery) (v : String)
    (hnd : ∀ doc ∈ index.documents, doc.languages.Nodup ∧ doc.material_keywords.Nodup ∧
      doc.script_keywords.Nodup ∧ doc.repository ≠ "" ∧
      doc.transcription_status ≠ some "") :
    natGet (ManuscriptSearch.search index query).facetCounts.languages v =
        (ManuscriptSearch.search index query).items.countP (fun it => v ∈ it.languages) ∧
      natGet (ManuscriptSearch.search index query).facetCounts.material_keywords v =
        (ManuscriptSearch.search index query).items.countP
          (fun it => v ∈ it.material_keywords) ∧
      natGet (ManuscriptSearch.search index query).facetCounts.script_keywords v =
        (ManuscriptSearch.search index query).items.countP
          (fun it => v ∈ it.script_keywords) ∧
      natGet (ManuscriptSearch.search index query).facetCounts.repository v =
        (ManuscriptSearch.search index query).items.countP
          (fun it => it.repository = v) ∧
      natGet (ManuscriptSearch.search index query).facetCounts.transcription_status v =
        (ManuscriptSearch.search index query).items.countP
          (fun it => it.transcription_status = some v) := by
  have hitems : ∀ it ∈ (ManuscriptSearch.search index query).items, it ∈ index.documents := by
    intro it hit
    rcases List.mem_filterMap.mp hit with ⟨id, hid, hsome⟩
    exact (idToDoc_eq_some hsome).1
  have hfc : (ManuscriptSearch.search index query).facetCounts =
      (ManuscriptSearch.search index query).items.foldl tallyEntry
        { languages := [], material_keywords := [], script_keywords := [],
          repository := [], transcription_status := [] } := rfl
  refine ⟨?_, ?_, ?_, ?_, ?_⟩
  · rw [hfc, calc_languages_sum]
    rw [sum_count_eq_countP _ (fun it => it.languages) v
      (fun it hit => (hnd it (hitems it hit)).1)]
    simp [natGet_nil]
  · rw [hfc, calc_material_sum]
    rw [sum_count_eq_countP _ (fun it => it.material_keywords) v
      (fun it hit => (hnd it (hitems it hit)).2.1)]
    simp [natGet_nil]
  · rw [hfc, calc_script_sum]
    rw [sum_count_eq_countP _ (fun it => it.script_keywords) v
      (fun it hit => (hnd it (hitems it hit)).2.2.1)]
    simp [natGet_nil]
  · rw [hfc, calc_repository_sum]
    have hpoint : (ManuscriptSearch.search index query).items.map
        (fun it => if it.repository ≠ "" ∧ it.repository = v then 1 else 0) =
        (ManuscriptSearch.search index query).items.map
          (fun it => if it.repository = v then 1 else 0) := by
      apply List.map_congr_left
      intro it hit
      have hr := (hnd it (hitems it hit)).2.2.2.1
      by_cases hv : it.repository = v
      · rw [if_pos ⟨hr, hv⟩, if_pos hv]
      · rw [if_neg (fun hc => hv hc.2), if_neg hv]
    rw [hpoint, sum_ite_eq_countP _ (fun it => it.repository = v)]
    simp [natGet_nil]
  · rw [hfc, calc_transcription_sum]
    have hpoint : (ManuscriptSearch.search index query).items.map
        (fun it =>
          match it.transcription_status with
          | Option.some ts => if ts ≠ "" ∧ ts = v then 1 else 0
          | Option.none => 0) =
        (ManuscriptSearch.search index query).items.map
          (fun it => if it.transcription_status = some v then 1 else 0) := by
      apply List.map_congr_left
      intro it hit
      have hts := (hnd it (hitems it hit)).2.2.2.2
      cases h : it.transcription_status with
      | none => simp
      | some ts =>
          dsimp only
          have hne : ts ≠ "" := by
            intro he
            exact hts (by rw [h, he])
          by_cases hv : ts = v
          · rw [if_pos ⟨hne, hv⟩, if_pos (congrArg some hv)]
          · rw [if_neg (fun hc => hv hc.2), if_neg (fun hc => hv (Option.some.inj hc))]
    rw [hpoint, sum_ite_eq_countP _ (fun it => it.transcription_status = some v)]
    simp [natGet_nil]

/-- Witness for the amended C6 at the example index. -/
theorem facet_counts_retally_witness :
    natGet (ManuscriptSearch.search exIndex { operations := [] }).facetCounts.languages
        "la" =
      (ManuscriptSearch.search exIndex { operations := [] }).items.countP
        (fun it => "la" ∈ it.languages) :=
  (facet_counts_retally exIndex { operations := [] } "la" (by decide)).1

/-! ## C8: ordering of the matched documents -/

/-- Counterexample to C8 as stated: with facet arrays `fr → [C]`-style
orderings, a facet `any` query inserts ids in facet-array order, so the
returned items (`B`, `C`, `A`) do not even form a subsequence of the index
document order (`A`, `B`, `C`). -/
theorem search_order_counterexample :
    ¬ ((ManuscriptSearch.search exIndex
        { operations := [SearchOperation.facet
            { facetType := "languages", values := ["fr", "la"] }] }).items.map
          (fun d => d.id)).Sublist
        (exIndex.documents.map (fun d => d.id)) := by
  decide

/-- C8 (amended): the matched documents appear in the order in which their
ids entered the matched ID set.  For the empty query and for single-operation
queries whose operation scans `index.documents` (TextSearch and
DateRangeSearch), that order is index document order — the items form a
sublist of `index.documents` when ids are pairwise distinct — but a
FacetSearch follows the facet-array insertion order, which need not be index
order. -/
theorem search_order_single_scan (index : SearchIndex) (query : SearchQuery)
    (hnd : (index.documents.map (fun d => d.id)).Nodup)
    (hq : query.operations = [] ∨
      (∃ topts, query.operations = [SearchOperation.text topts]) ∨
      (∃ dopts, query.operations = [SearchOperation.date dopts])) :
    (ManuscriptSearch.search index query).items.Sublist index.documents := by
  have hitems : (ManuscriptSearch.search index query).items =
      (searchIds index query).filterMap (idToDoc index.documents) := rfl
  have haux : ∀ p : ManuscriptEntry → Bool,
      ((index.documents.foldl
          (fun results doc => if p doc then SAdd results doc.id else results) []).filterMap
        (idToDoc index.documents)).Sublist index.documents := by
    intro p
    rw [foldl_addIf_eq_filter index.documents (fun d => p d) hnd]
    rw [filterMap_map_all_some (idToDoc index.documents) (fun d => d.id) _
      (fun d hd => idToDoc_self hnd (List.mem_of_mem_filter hd))]
    exact List.filter_sublist _
  rcases hq with hq | ⟨topts, hq⟩ | ⟨dopts, hq⟩
  · have hids : searchIds index query =
        (index.documents.map (fun doc => doc.id)).foldl SAdd [] := by
      unfold searchIds
      rw [hq]
    rw [hitems, hids, foldl_SAdd_self _ hnd,
      filterMap_map_all_some (idToDoc index.documents) (fun d => d.id) index.documents
        (fun d hd => idToDoc_self hnd hd)]
  · have hids : searchIds index query = TextSearch.execute index topts := by
      unfold searchIds
      rw [hq]
      rfl
    rw [hitems, hids]
    exact haux (fun d => docMatchesText topts d)
  · have hids : searchIds index query = DateRangeSearch.execute index dopts := by
      unfold searchIds
      rw [hq]
      rfl
    rw [hitems, hids]
    exact haux (fun d => dateMatches dopts d)

/-- Witness for the amended C8: a single text search on the example index
returns items in index order. -/
theorem search_order_single_scan_witness :
    (ManuscriptSearch.search exIndex
      { operations := [SearchOperation.text
          { fields := [EntryField.title], query := "book" }] }).items.Sublist
      exIndex.documents :=
  search_order_single_scan exIndex
    { operations := [SearchOperation.text
        { fields := [EntryField.title], query := "book" }] }
    (by decide)
    (Or.inr (Or.inl ⟨{ fields := [EntryField.title], query := "book" }, rfl⟩))

/-! ## C3: characterization of the fuzzy matcher -/

/-- The specification's characterization of a fuzzy match over already
ASCII-lowercased strings: substring containment, or (for queries of length at
least 3) some whitespace-delimited word that equals the query, yields the
query after deleting exactly one character, or shares a prefix of length
`min(len(query), len(word)) - 1 ≥ 3` with it. -/
def fuzzySpec (t q : String) : Bool :=
  containsSubstr t q ||
  (3 ≤ q.length &&
    (splitWs t).any (fun w =>
      w = q ||
      (List.range w.length).any (fun i => w.data.take i ++ w.data.drop (i + 1) = q.data) ||
      (3 ≤ min q.length w.length - 1 &&
        w.data.take (min q.length w.length - 1) = q.data.take (min q.length w.length - 1))))

theorem delete_one_length {w q : String} {i : Nat} (hi : i < w.data.length)
    (h : w.data.take i ++ w.data.drop (i + 1) = q.data) :
    w.data.length = q.data.length + 1 := by
  have hl := congrArg List.length h
  simp only [List.length_append, List.length_take, List.length_drop] at hl
  omega

theorem list_any_congr {α : Type} (l : List α) (p q : α → Bool) (h : ∀ a, p a = q a) :
    l.any p = l.any q := by
  induction l with
  | nil => rfl
  | cons a as ih => simp only [List.any_cons, h a, ih]

theorem fuzzy_word_eq (w q : String) (hq3 : 3 ≤ q.length) :
    ((w = q : Bool) ||
      (4 ≤ w.length && 3 ≤ q.length &&
        ((List.range w.length).any (fun i =>
            w.data.take i ++ w.data.drop (i + 1) = q.data) ||
         (3 ≤ min q.length w.length - 1 &&
           w.data.take (min q.length w.length - 1) =
             q.data.take (min q.length w.length - 1))))) =
    ((w = q : Bool) ||
      (List.range w.length).any (fun i => w.data.take i ++ w.data.drop (i + 1) = q.data) ||
      (3 ≤ min q.length w.length - 1 &&
        w.data.take (min q.length w.length - 1) =
          q.data.take (min q.length w.length - 1))) := by
  have hwd : w.length = w.data.length := rfl
  have hqd : q.length = q.data.length := rfl
  rw [Bool.eq_iff_iff]
  simp only [Bool.or_eq_true, Bool.and_eq_true, decide_eq_true_eq, List.any_eq_true,
    List.mem_range]
  constructor
  · intro h
    rcases h with h | ⟨⟨h4, h3⟩, hdp⟩
    · exact Or.inl (Or.inl h)
    · rcases hdp with hdel | hpref
      · exact Or.inl (Or.inr hdel)
      · exact Or.inr hpref
  · intro h
    rcases h with (h | ⟨i, hi, heq⟩) | ⟨hp3, heq⟩
    · exact Or.inl h
    · refine Or.inr ⟨⟨?_, hq3⟩, Or.inl ⟨i, hi, heq⟩⟩
      have hlen := delete_one_length (show i < w.data.length from hwd ▸ hi) heq
      omega
    · refine Or.inr ⟨⟨?_, hq3⟩, Or.inr ⟨hp3, heq⟩⟩
      omega

/-- C3: over ASCII-lowercased field value and query, the fuzzy text matcher
accepts exactly when the value contains the query as a substring, or the
query has length at least 3 and some whitespace-delimited word of the value
equals the query, yields the query after deleting exactly one character, or
agrees with the query on the first `min(len(query), len(word)) - 1 ≥ 3`
characters. -/
theorem fuzzyMatch_characterization (t q : String)
    (ht : asciiLower t = t) (hq : asciiLower q = q) :
    matchString t q TextMatchType.fuzzy = fuzzySpec t q := by
  show fuzzyMatch (asciiLower t) q = fuzzySpec t q
  rw [ht]
  unfold fuzzyMatch fuzzySpec
  by_cases hc : containsSubstr t q = true
  · rw [if_pos hc, hc]
    simp
  · have hcf : containsSubstr t q = false := Bool.eq_false_iff.mpr hc
    rw [if_neg hc]
    by_cases h2 : q.length ≤ 2
    · rw [if_pos h2, hcf]
      have h3f : (decide (3 ≤ q.length)) = false := by
        simp only [decide_eq_false_iff_not]
        omega
      rw [h3f]
      simp
    · rw [if_neg h2, hcf]
      have h3t : (decide (3 ≤ q.length)) = true := by
        simp only [decide_eq_true_eq]
        omega
      rw [h3t]
      simp only [Bool.false_or, Bool.true_and]
      rw [ht, hq]
      exact list_any_congr (splitWs t) _ _ (fun w => fuzzy_word_eq w q (by omega))

/-- Witness for C3: the classic dropped-letter typo. -/
theorem fuzzyMatch_characterization_witness :
    matchString "ancient manuscript" "manuscrpt" TextMatchType.fuzzy =
      fuzzySpec "ancient manuscript" "manuscrpt" :=
  fuzzyMatch_characterization "ancient manuscript" "manuscrpt" (by decide) (by decide)
